import Mathlib

/-!
Verification development for the AI-Chat-Pal chat application.

The definitions below are a shallow embedding of the application's state and
operations (`src/chat-ui/app.js` and the extended variant `src/unnamed/part_000`).
Text values are embedded as `List Char` (JS strings), timestamps as `Nat`,
and the DOM-driven event handlers as pure state-transforming functions.
Rendering-only code (class toggling, scrolling, markdown display) has no
effect on the chat state and is not modelled.
-/

namespace ChatPal

/-- Role of a conversation turn: the `role` argument of `addMessage` is either
the literal `'user'` or `'assistant'` in the source. -/
inductive Role where
  | user
  | assistant
deriving DecidableEq, Repr

/-- Thoughts metadata attached to assistant messages
(`\x7b plan: string[], activity: string[] \x7d` in the source). -/
structure Thoughts where
  plan : List (List Char)
  activity : List (List Char)
deriving DecidableEq, Repr

/-- Message record as built by `addMessage`:
`\x7b id, role, content, createdAt, thoughts, streaming \x7d`.
The random id `'m_' + Math.random().toString(36).slice(2)` is supplied by the
caller of the embedded operation, since it is external randomness. -/
structure Message where
  id : String
  role : Role
  content : List Char
  createdAt : Nat
  thoughts : Option Thoughts
  streaming : Bool
deriving DecidableEq, Repr

/-- Fields passed to `updateMessage(id, updates)`; the source only ever passes
`content` and/or `streaming`, so the object spread `\x7b ...msg, ...updates \x7d`
is embedded as an optional override of exactly those fields. -/
structure MsgUpdates where
  content : Option (List Char) := none
  streaming : Option Bool := none
deriving DecidableEq, Repr

/-- Effect of the spread `\x7b ...chat.messages[idx], ...updates \x7d`. -/
def applyUpdates (u : MsgUpdates) (m : Message) : Message :=
  { m with
    content := u.content.getD m.content
    streaming := u.streaming.getD m.streaming }

/-- Core of `addMessage`: `chat.messages.push(message)` on the active chat's
message list (app.js lines 47-60 / part_000 lines 61-74). -/
def addMessage (m : Message) (msgs : List Message) : List Message :=
  msgs ++ [m]

/-- Core of `updateMessage(id, updates)` (app.js lines 62-69 / part_000 lines
76-83): `findIndex` locates the first message with the given id and replaces it
with the spread `\x7b ...old, ...updates \x7d`; when no index matches, nothing
happens. -/
def updateMessage (mid : String) (u : MsgUpdates) : List Message → List Message
  | [] => []
  | m :: ms => if m.id = mid then applyUpdates u m :: ms else m :: updateMessage mid u ms

/-- Core of the delete action installed by `attachMessageActions` (part_000
lines 305-319): `chat.messages.splice(realIndex, 1)`, where `realIndex` is the
position of the clicked message among the rendered messages. -/
def deleteMessage (idx : Nat) (msgs : List Message) : List Message :=
  msgs.eraseIdx idx

/-- Thoughts object passed by `simulateAssistantResponse` to `addMessage`. -/
def simThoughts : Thoughts :=
  { plan :=
      [ "Clarify the goal and outline a minimal solution.".data
      , "Separate Thoughts (summary/log) from Output for clarity.".data
      , "Return a concise, styled answer with optional details.".data ]
    activity :=
      [ "Parsed input and extracted key intents.".data
      , "Rendered UI with Thoughts panel enabled.".data
      , "Streaming response content to the chat.".data ] }

/-- The template string `full` built by `simulateAssistantResponse` from the
user's text. -/
def responseText (userText : List Char) : List Char :=
  "Here is your response for: \"".data ++ userText ++
    "\"\n\n- Designed to separate Thoughts from Output\n- Includes a clean, modern layout and a streaming effect\n\nYou can customize styles in styles.css and behaviors in app.js.".data

/-- Initial assistant message appended at the start of a simulated response:
`addMessage('assistant', '', \x7b streaming: true, thoughts: ... \x7d)`. -/
def initAssistantMsg (mid : String) (ts : Nat) : Message :=
  { id := mid
    role := Role.assistant
    content := []
    createdAt := ts
    thoughts := some simThoughts
    streaming := true }

/-- Interval loop of `simulateAssistantResponse` (app.js lines 186-196 /
part_000 lines 377-388): each tick advances `i` by 2, rewrites the message
content to `full.slice(0, i)`, and once `i >= full.length` clears the
`streaming` flag and stops. -/
def streamFrom (mid : String) (full : List Char) (i : Nat) (msgs : List Message) :
    List Message :=
  if full.length ≤ i + 2 then
    updateMessage mid { streaming := some false }
      (updateMessage mid { content := some (full.take (i + 2)) } msgs)
  else
    streamFrom mid full (i + 2) (updateMessage mid { content := some (full.take (i + 2)) } msgs)
termination_by full.length - i
decreasing_by simp_wf; omega

/-- Whole effect of `simulateAssistantResponse(userText)` on the active chat's
message list, from appending the streaming placeholder to the final tick. -/
def simulateAssistantResponse (mid : String) (ts : Nat) (userText : List Char)
    (msgs : List Message) : List Message :=
  streamFrom mid (responseText userText) 0 (addMessage (initAssistantMsg mid ts) msgs)

/-- Successive transcript states produced by the interval loop, one per
`updateMessage` call; the final tick contributes two states (content update,
then the `streaming: false` update). -/
def streamTraceFrom (mid : String) (full : List Char) (i : Nat) (msgs : List Message) :
    List (List Message) :=
  if full.length ≤ i + 2 then
    [ updateMessage mid { content := some (full.take (i + 2)) } msgs
    , updateMessage mid { streaming := some false }
        (updateMessage mid { content := some (full.take (i + 2)) } msgs) ]
  else
    updateMessage mid { content := some (full.take (i + 2)) } msgs ::
      streamTraceFrom mid full (i + 2) (updateMessage mid { content := some (full.take (i + 2)) } msgs)
termination_by full.length - i
decreasing_by simp_wf; omega

/-- Every transcript state visible during `simulateAssistantResponse`, starting
with the state right after the streaming placeholder is appended. -/
def simulateTrace (mid : String) (ts : Nat) (userText : List Char)
    (msgs : List Message) : List (List Message) :=
  let st0 := addMessage (initAssistantMsg mid ts) msgs
  st0 :: streamTraceFrom mid (responseText userText) 0 st0

/-- Index/flag schedule of the interval loop: the slice bound used at each
tick, paired with the value of the `streaming` flag after the tick. -/
def streamSteps (len i : Nat) : List (Nat × Bool) :=
  if len ≤ i + 2 then [(i + 2, true), (i + 2, false)]
  else (i + 2, true) :: streamSteps len (i + 2)
termination_by len - i
decreasing_by simp_wf; omega

/-- Text chunks delivered by the interval loop: the increment
`full.slice(0, i + 2)` minus the previously shown `full.slice(0, i)`. -/
def chunksFrom (full : List Char) (i : Nat) : List (List Char) :=
  if full.length ≤ i + 2 then [(full.take (i + 2)).drop i]
  else (full.take (i + 2)).drop i :: chunksFrom full (i + 2)
termination_by full.length - i
decreasing_by simp_wf; omega

/-- Content of the message with the given id in a transcript state (the text a
reader of the transcript sees for that turn); `[]` if the id is absent. -/
def assistantContentIn (mid : String) (s : List Message) : List Char :=
  ((s.find? fun m => m.id == mid).map Message.content).getD []

/-- Successive contents of the streamed turn over the whole simulated
response. -/
def traceContents (mid : String) (ts : Nat) (userText : List Char)
    (msgs : List Message) : List (List Char) :=
  (simulateTrace mid ts userText msgs).map (assistantContentIn mid)

/-- State of the streamed turn at one step of the schedule: content is the
slice shown at that step, streaming is the flag after the step. -/
def traceMsg (mid : String) (ts : Nat) (userText : List Char) (p : Nat × Bool) : Message :=
  { initAssistantMsg mid ts with
    content := (responseText userText).take p.1
    streaming := p.2 }

/-- Chat record: `\x7b id, title, messages \x7d`. -/
structure Chat where
  id : String
  title : List Char
  messages : List Message
deriving DecidableEq, Repr

/-- Application state: the module-level `chats` array and `activeChatId`. -/
structure AppState where
  chats : List Chat
  activeChatId : String
deriving DecidableEq, Repr

/-- Replace the first element satisfying the predicate; JS `Array.find` hands
back a reference to the first match, and in-place mutation through that
reference is embedded as rebuilding the list with that element replaced. -/
def modifyFirst (p : α → Bool) (f : α → α) : List α → List α
  | [] => []
  | x :: xs => if p x then f x :: xs else x :: modifyFirst p f xs

/-- `getActiveChat()`: `chats.find(c => c.id === activeChatId)`. -/
def getActiveChat (s : AppState) : Option Chat :=
  s.chats.find? fun c => c.id == s.activeChatId

/-- Mutation of the active chat's message list through the reference returned
by `getActiveChat()`; `addMessage`, `updateMessage`, the delete action and the
streaming ticks all take this shape at the state level. -/
def modifyActiveChat (f : List Message → List Message) (s : AppState) : AppState :=
  { s with
    chats := modifyFirst (fun c => c.id == s.activeChatId)
      (fun c => { c with messages := f c.messages }) s.chats }

/-- Welcome text seeded into an empty active chat by `initSeedMessages`. -/
def welcomeText : List Char :=
  "Welcome! Ask me anything. Thoughts are shown as a concise summary and activity log (no private chain-of-thought).".data

/-- Thoughts object passed by `initSeedMessages`. -/
def seedThoughts : Thoughts :=
  { plan :=
      [ "Greet the user and invite a question.".data
      , "Explain the Thoughts vs Output separation briefly.".data ]
    activity := [ "Initialized chat session.".data ] }

/-- Seed message appended by `initSeedMessages` (streaming omitted in `meta`,
hence `!!meta.streaming` is `false`). -/
def seedMessage (mid : String) (ts : Nat) : Message :=
  { id := mid
    role := Role.assistant
    content := welcomeText
    createdAt := ts
    thoughts := some seedThoughts
    streaming := false }

/-- `initSeedMessages()`: if the active chat already has messages, return;
otherwise append the welcome message to it. -/
def initSeedMessages (mid : String) (ts : Nat) (s : AppState) : AppState :=
  match getActiveChat s with
  | none => s
  | some c =>
    if 0 < c.messages.length then s
    else modifyActiveChat (fun ms => addMessage (seedMessage mid ts) ms) s

/-- Id chosen by the new-chat click handler: `'c' + (chats.length + 1)`. -/
def newChatId (chats : List Chat) : String :=
  "c" ++ Nat.repr (chats.length + 1)

/-- New-chat click handler (app.js lines 283-291 / part_000 lines 507-515):
unshift a fresh chat, make it active, then `initSeedMessages()` seeds the
(empty) new chat with the welcome message. -/
def newChatClick (mid : String) (ts : Nat) (s : AppState) : AppState :=
  initSeedMessages mid ts
    { chats := { id := newChatId s.chats, title := "New chat".data, messages := [] } :: s.chats
      activeChatId := newChatId s.chats }

/-- JS `String.prototype.trim`: strip leading and trailing whitespace. -/
def trimChars (s : List Char) : List Char :=
  ((s.dropWhile Char.isWhitespace).reverse.dropWhile Char.isWhitespace).reverse

/-- JS `Array.prototype.join(', ')` over the pending attachment names. -/
def joinNames : List (List Char) → List Char
  | [] => []
  | [n] => n
  | n :: ns => n ++ ", ".data ++ joinNames ns

/-- Content assembled by the part_000 send handler: the trimmed text, plus an
`Attachments:` line when attachments are pending
(`content += (content ? '\n\n' : '') + 'Attachments: ' + names`). -/
def sendContent (text : List Char) (pending : List (List Char)) : List Char :=
  if pending.length = 0 then text
  else (if text = [] then [] else text ++ "\n\n".data) ++ "Attachments: ".data ++ joinNames pending

/-- User message record built by `addMessage('user', content)`. -/
def userMsg (mid : String) (ts : Nat) (content : List Char) : Message :=
  { id := mid
    role := Role.user
    content := content
    createdAt := ts
    thoughts := none
    streaming := false }

/-- Send-button click handler (part_000 lines 475-490): guard
`if (!text && pendingAttachments.length === 0) return;`, otherwise clear the
attachments, append the user turn, and run the simulated assistant response.
Returns the new app state together with the new pending-attachment list. -/
def sendClick (umid amid : String) (ts : Nat) (input : List Char)
    (pending : List (List Char)) (s : AppState) : AppState × List (List Char) :=
  let text := trimChars input
  if text = [] ∧ pending = [] then (s, pending)
  else
    let content := sendContent text pending
    ( modifyActiveChat
        (fun ms => simulateAssistantResponse amid ts content
          (addMessage (userMsg umid ts content) ms)) s
    , [] )

/-- Initial module state: `chats = [\x7b id: 'c1', title: 'Welcome', messages: [] \x7d]`,
`activeChatId = 'c1'`. -/
def initialState : AppState :=
  { chats := [{ id := "c1", title := "Welcome".data, messages := [] }]
    activeChatId := "c1" }

/-- One interface-level state transition: creating a chat via the new-chat
button, editing the active chat's message list (send, streaming tick, delete,
seed — all factor through `modifyActiveChat`), or selecting a chat from the
sidebar (which sets `activeChatId` to an existing chat's id). -/
inductive Step : AppState → AppState → Prop where
  | newChat (mid : String) (ts : Nat) (s : AppState) : Step s (newChatClick mid ts s)
  | editActive (f : List Message → List Message) (s : AppState) :
      Step s (modifyActiveChat f s)
  | selectChat (c : Chat) (s : AppState) (h : c ∈ s.chats) :
      Step s { s with activeChatId := c.id }

/-- States reachable from boot by interface events. -/
def Reachable (s : AppState) : Prop :=
  Relation.ReflTransGen Step initialState s

/-- Sample message used for concrete instantiations. -/
def sampleMsg (k : Nat) : Message :=
  { id := "m_" ++ Nat.repr k
    role := Role.user
    content := "t".data
    createdAt := k
    thoughts := none
    streaming := false }

/-- Modelled from the spec: the repository has no quota/session backend under
`src/` (only the chat UI is present), so the Quota Manager's user record of
§4.2/§4.1 — `\x7b count, resetDay \x7d` — is modelled from the spec's words.
Days are abstract day indices. -/
structure UserRecord where
  count : Nat
  resetDay : Nat
deriving DecidableEq, Repr

/-- Modelled from the spec: unlock grant `\x7b key, expiry \x7d` (spec §3),
absent from the source. Expiry is an abstract timestamp. -/
structure Grant where
  key : String
  expiry : Nat
deriving DecidableEq, Repr

/-- Modelled from the spec: outcome of an admission check (§4.2); a denial
carries the reason string and the effective reset time. -/
inductive AdmitDecision where
  | admitted
  | denied (reason : String) (resetAt : Nat)
deriving DecidableEq, Repr

/-- Modelled from the spec: step 1 of the admission algorithm — a grant is
active when it is present and `grant.expiry > now` (lazy expiry). -/
def grantActive (now : Nat) (g : Option Grant) : Bool :=
  match g with
  | some g => now < g.expiry
  | none => false

/-- Modelled from the spec: zeroed user record created on first access
(`getUser`, §4.1): count 0, reset-day = today. -/
def freshUser (today : Nat) : UserRecord :=
  { count := 0, resetDay := today }

/-- Modelled from the spec: the admission algorithm of §4.2, absent from the
source. Step 1: an active grant admits unconditionally without touching the
count. Step 2: a stale `resetDay` means the count is treated as 0 (lazy
reset). Step 3: `count >= freeLimit` denies with reason "quota exceeded" and
the next day boundary (`today + 1`, the next midnight in day units) as the
reset time. Step 4: otherwise increment the count and grant admission. -/
def admission (freeLimit today now : Nat) (g : Option Grant) (u : UserRecord) :
    AdmitDecision × UserRecord :=
  if grantActive now g then (AdmitDecision.admitted, u)
  else
    let c := if u.resetDay = today then u.count else 0
    if freeLimit ≤ c then (AdmitDecision.denied "quota exceeded" (today + 1), u)
    else (AdmitDecision.admitted, { count := c + 1, resetDay := today })

/-- Modelled from the spec: the user record after `n` successive admission
attempts on the same day. -/
def admitN (freeLimit today now : Nat) (g : Option Grant) (u : UserRecord) :
    Nat → UserRecord
  | 0 => u
  | n + 1 => (admission freeLimit today now g (admitN freeLimit today now g u n)).2

/-- Decimal digit list of a natural number, most significant digit first;
reference recursion used to reason about `Nat.repr`. -/
def natDigits (n : Nat) : List Char :=
  if n / 10 = 0 then [Nat.digitChar (n % 10)]
  else natDigits (n / 10) ++ [Nat.digitChar (n % 10)]
termination_by n
decreasing_by simp_wf; omega

/-- Value read back from a decimal digit list. -/
def valOfDigits (cs : List Char) : Nat :=
  cs.foldl (fun a c => a * 10 + (c.toNat - 48)) 0

/-- Chat ids present after n chats have been created: the new-chat handler
names chat number k (counting the initial chat as number 1) `'c' + k` and
unshifts it, so the id list is `cn, ..., c2, c1`. -/
def expectedIds (n : Nat) : List String :=
  (List.range n).reverse.map fun k => "c" ++ Nat.repr (k + 1)

instance : IsTrans (Nat × Bool) fun p q => p.1 ≤ q.1 :=
  ⟨fun _ _ _ h h' => le_trans h h'⟩

/- ### Helper lemmas -/

theorem updateMessage_not_found (mid : String) (u : MsgUpdates) (msgs : List Message)
    (h : ∀ x ∈ msgs, x.id ≠ mid) : updateMessage mid u msgs = msgs := by
  induction msgs with
  | nil => rfl
  | cons x xs ih =>
    rw [updateMessage, if_neg (h x (List.mem_cons_self x xs))]
    rw [ih fun y hy => h y (List.mem_cons_of_mem x hy)]

theorem updateMessage_append_fresh (mid : String) (u : MsgUpdates) (msgs : List Message)
    (m : Message) (hm : m.id = mid) (hfresh : ∀ x ∈ msgs, x.id ≠ mid) :
    updateMessage mid u (msgs ++ [m]) = msgs ++ [applyUpdates u m] := by
  induction msgs with
  | nil => simp [updateMessage, hm]
  | cons x xs ih =>
    rw [List.cons_append, updateMessage, if_neg (hfresh x (List.mem_cons_self x xs))]
    rw [ih fun y hy => hfresh y (List.mem_cons_of_mem x hy)]
    rfl

theorem applyUpdates_id (u : MsgUpdates) (m : Message) : (applyUpdates u m).id = m.id := rfl

theorem applyUpdates_content (c : List Char) (m : Message) :
    applyUpdates { content := some c } m = { m with content := c } := by
  simp [applyUpdates]

theorem applyUpdates_streaming (b : Bool) (m : Message) :
    applyUpdates { streaming := some b } m = { m with streaming := b } := by
  simp [applyUpdates]

theorem streamFrom_fresh (mid : String) (full : List Char) (i : Nat) (msgs : List Message)
    (m : Message) (hm : m.id = mid) (hfresh : ∀ x ∈ msgs, x.id ≠ mid) :
    streamFrom mid full i (msgs ++ [m]) =
      msgs ++ [{ m with content := full, streaming := false }] := by
  rw [streamFrom]
  by_cases hle : full.length ≤ i + 2
  · rw [if_pos hle]
    rw [updateMessage_append_fresh mid _ msgs m hm hfresh]
    rw [updateMessage_append_fresh mid _ msgs _ (by simp [applyUpdates, hm]) hfresh]
    obtain ⟨a, b, c, d, e, f⟩ := m
    simp [applyUpdates, List.take_of_length_le hle]
  · rw [if_neg hle]
    rw [updateMessage_append_fresh mid _ msgs m hm hfresh]
    rw [streamFrom_fresh mid full (i + 2) msgs _ (by simp [applyUpdates, hm]) hfresh]
    obtain ⟨a, b, c, d, e, f⟩ := m
    simp [applyUpdates]
termination_by full.length - i
decreasing_by simp_wf; omega

theorem chunksFrom_flatten (full : List Char) (i : Nat) :
    (chunksFrom full i).flatten = full.drop i := by
  rw [chunksFrom]
  by_cases hle : full.length ≤ i + 2
  · rw [if_pos hle]
    simp [List.take_of_length_le hle]
  · rw [if_neg hle]
    rw [List.flatten_cons, chunksFrom_flatten full (i + 2)]
    conv_rhs => rw [← List.take_append_drop (i + 2) full]
    rw [List.drop_append_of_le_length (by simp; omega)]
termination_by full.length - i
decreasing_by simp_wf; omega

/- ### C1 -/

/-- C1: a completed (non-failing) simulated stream appends exactly one
assistant turn to the transcript; its final content is the concatenation of
all chunks delivered by the interval loop (the whole template text), and the
`streaming` flag is cleared on completion. -/
theorem completed_stream_appends_one_turn (mid : String) (ts : Nat) (u : List Char)
    (msgs : List Message) (hfresh : ∀ x ∈ msgs, x.id ≠ mid) :
    simulateAssistantResponse mid ts u msgs =
      msgs ++ [{ id := mid, role := Role.assistant,
                 content := (chunksFrom (responseText u) 0).flatten,
                 createdAt := ts, thoughts := some simThoughts, streaming := false }] := by
  have hchunks : (chunksFrom (responseText u) 0).flatten = responseText u := by
    rw [chunksFrom_flatten]; rfl
  rw [hchunks]
  exact streamFrom_fresh mid (responseText u) 0 msgs (initAssistantMsg mid ts) rfl hfresh

/-- Witness for C1 at a concrete input. -/
theorem completed_stream_appends_one_turn_witness :
    simulateAssistantResponse "m_a1" 3 "hi".data [] =
      [{ id := "m_a1", role := Role.assistant,
         content := (chunksFrom (responseText "hi".data) 0).flatten,
         createdAt := 3, thoughts := some simThoughts, streaming := false }] :=
  completed_stream_appends_one_turn "m_a1" 3 "hi".data [] (by simp)

/- ### C2 and C6: closed form of the stream trace -/

theorem take_prefix_mono (l : List Char) (a b : Nat) (hab : a ≤ b) :
    l.take a <+: l.take b := by
  have h := List.take_prefix a (l.take b)
  rwa [List.take_take, Nat.min_eq_left hab] at h

theorem find?_append_fresh (mid : String) (msgs : List Message) (m : Message)
    (hm : m.id = mid) (hfresh : ∀ x ∈ msgs, x.id ≠ mid) :
    (msgs ++ [m]).find? (fun x => x.id == mid) = some m := by
  induction msgs with
  | nil =>
    rw [List.nil_append]
    exact List.find?_cons_of_pos _ (by simpa using hm)
  | cons x xs ih =>
    rw [List.cons_append,
      List.find?_cons_of_neg _ (by simpa using hfresh x (List.mem_cons_self x xs))]
    exact ih fun y hy => hfresh y (List.mem_cons_of_mem x hy)

theorem streamTraceFrom_closed (mid : String) (full : List Char) (i : Nat)
    (msgs : List Message) (m : Message) (hm : m.id = mid) (hstr : m.streaming = true)
    (hfresh : ∀ x ∈ msgs, x.id ≠ mid) :
    streamTraceFrom mid full i (msgs ++ [m]) =
      (streamSteps full.length i).map fun p =>
        msgs ++ [{ m with content := full.take p.1, streaming := p.2 }] := by
  obtain ⟨mi, mr, mc, mt, mth, ms⟩ := m
  change mi = mid at hm
  change ms = true at hstr
  subst hm
  subst hstr
  rw [streamTraceFrom, streamSteps]
  by_cases hle : full.length ≤ i + 2
  · rw [if_pos hle, if_pos hle]
    rw [updateMessage_append_fresh mi _ msgs _ rfl hfresh]
    rw [applyUpdates_content]
    rw [updateMessage_append_fresh mi _ msgs _ rfl hfresh]
    rw [applyUpdates_streaming]
    simp
  · rw [if_neg hle, if_neg hle]
    rw [updateMessage_append_fresh mi _ msgs _ rfl hfresh]
    rw [applyUpdates_content]
    rw [streamTraceFrom_closed mi full (i + 2) msgs _ rfl rfl hfresh]
    simp
termination_by full.length - i
decreasing_by simp_wf; omega

theorem simulateTrace_closed (mid : String) (ts : Nat) (u : List Char)
    (msgs : List Message) (hfresh : ∀ x ∈ msgs, x.id ≠ mid) :
    simulateTrace mid ts u msgs =
      ((0, true) :: streamSteps (responseText u).length 0).map fun p =>
        msgs ++ [traceMsg mid ts u p] := by
  simp only [simulateTrace, List.map_cons]
  congr 1
  rw [show addMessage (initAssistantMsg mid ts) msgs = msgs ++ [initAssistantMsg mid ts]
    from rfl]
  rw [streamTraceFrom_closed mid (responseText u) 0 msgs (initAssistantMsg mid ts)
    rfl rfl hfresh]
  simp only [traceMsg]

theorem traceContents_closed (mid : String) (ts : Nat) (u : List Char)
    (msgs : List Message) (hfresh : ∀ x ∈ msgs, x.id ≠ mid) :
    traceContents mid ts u msgs =
      ((0, true) :: streamSteps (responseText u).length 0).map
        fun p => (responseText u).take p.1 := by
  rw [traceContents, simulateTrace_closed mid ts u msgs hfresh, List.map_map]
  refine List.map_congr_left fun p _ => ?_
  have hf := find?_append_fresh mid msgs (traceMsg mid ts u p) rfl hfresh
  simp only [Function.comp_apply, assistantContentIn, hf, Option.map_some', Option.getD_some]
  rfl

theorem streamSteps_chain (len i : Nat) (x : Nat × Bool) (hx : x.1 ≤ i + 2) :
    List.Chain' (fun p q : Nat × Bool => p.1 ≤ q.1) (x :: streamSteps len i) := by
  rw [streamSteps]
  by_cases hle : len ≤ i + 2
  · rw [if_pos hle]
    exact List.chain'_cons.mpr ⟨hx, List.chain'_cons.mpr ⟨le_rfl, List.chain'_singleton _⟩⟩
  · rw [if_neg hle]
    exact List.chain'_cons.mpr ⟨hx, streamSteps_chain len (i + 2) (i + 2, true) (by omega)⟩
termination_by len - i
decreasing_by simp_wf; omega

theorem streamSteps_pairwise (len : Nat) :
    List.Pairwise (fun p q : Nat × Bool => p.1 ≤ q.1)
      ((0, true) :: streamSteps len 0) :=
  List.chain'_iff_pairwise.mp (streamSteps_chain len 0 (0, true) (by omega))

theorem streamSteps_snd_false (len i : Nat) :
    ∀ p ∈ streamSteps len i, p.2 = false → len ≤ p.1 := by
  intro p hp hfalse
  rw [streamSteps] at hp
  by_cases hle : len ≤ i + 2
  · rw [if_pos hle] at hp
    rcases List.mem_cons.mp hp with h | h
    · subst h; simp at hfalse
    · rcases List.mem_cons.mp h with h | h
      · subst h; exact hle
      · simp at h
  · rw [if_neg hle] at hp
    rcases List.mem_cons.mp hp with h | h
    · subst h; simp at hfalse
    · exact streamSteps_snd_false len (i + 2) p h hfalse
termination_by len - i
decreasing_by simp_wf; omega

/-- C2 (amended): the in-progress model turn is present in the transcript from
the moment the stream starts, flagged `streaming := true`; at every point its
content is a prefix of the final text, and a state in which the turn is
unflagged (`streaming = false`) carries the full final content — so content
that is only partially delivered appears in the transcript solely on the turn
still flagged as streaming. -/
theorem streamed_turn_in_transcript_flagged (mid : String) (ts : Nat) (u : List Char)
    (msgs : List Message) (hfresh : ∀ x ∈ msgs, x.id ≠ mid) :
    ∀ s ∈ simulateTrace mid ts u msgs, ∃ m',
      s = msgs ++ [m'] ∧ m'.id = mid ∧ m'.role = Role.assistant ∧
      m'.content <+: responseText u ∧
      (m'.streaming = false → m'.content = responseText u) := by
  intro s hs
  rw [simulateTrace_closed mid ts u msgs hfresh] at hs
  obtain ⟨p, hp, rfl⟩ := List.mem_map.mp hs
  refine ⟨traceMsg mid ts u p, rfl, rfl, rfl, List.take_prefix _ _, ?_⟩
  intro hfalse
  have hf : p.2 = false := hfalse
  rcases List.mem_cons.mp hp with h | h
  · subst h; simp at hf
  · show (responseText u).take p.1 = responseText u
    exact List.take_of_length_le (streamSteps_snd_false (responseText u).length 0 p h hf)

/-- Witness for the amended C2 at a concrete input: the state right after the
placeholder is appended. -/
theorem streamed_turn_in_transcript_flagged_witness :
    ∃ m', ([initAssistantMsg "m_a3" 1] : List Message) = [] ++ [m'] ∧ m'.id = "m_a3" ∧
      m'.role = Role.assistant ∧ m'.content <+: responseText "ok".data ∧
      (m'.streaming = false → m'.content = responseText "ok".data) :=
  streamed_turn_in_transcript_flagged "m_a3" 1 "ok".data [] (by simp)
    [initAssistantMsg "m_a3" 1] (by simp [simulateTrace, addMessage])

/-- C2 counterexample: as stated, the claim is false — immediately after a
message is sent, the transcript already contains the model turn (role
assistant, `streaming = true`) whose content is a not-yet-finalized partial
delivery (here the empty prefix, not the final text). -/
theorem streaming_partial_turn_in_transcript :
    ∃ s ∈ simulateTrace "m_a2" 0 "hi".data [], ∃ m ∈ s,
      m.role = Role.assistant ∧ m.streaming = true ∧ m.content ≠ responseText "hi".data := by
  refine ⟨[initAssistantMsg "m_a2" 0], by simp [simulateTrace, addMessage],
    initAssistantMsg "m_a2" 0, by simp, rfl, rfl, by decide⟩

/-- C6: the successive contents of the streamed turn over the simulated
response are monotonically extending prefixes — the content shown at step i
is a prefix of the content shown at any later step j, and every shown content
is a prefix of the final full text. -/
theorem stream_partials_monotone (mid : String) (ts : Nat) (u : List Char)
    (msgs : List Message) (hfresh : ∀ x ∈ msgs, x.id ≠ mid) (i j : Nat) (hij : i ≤ j)
    (a b : List Char)
    (ha : (traceContents mid ts u msgs).get? i = some a)
    (hb : (traceContents mid ts u msgs).get? j = some b) :
    a <+: b ∧ b <+: responseText u := by
  rw [traceContents_closed mid ts u msgs hfresh, List.get?_map] at ha hb
  obtain ⟨p, hp, hpa⟩ := Option.map_eq_some'.mp ha
  obtain ⟨q, hq, hqb⟩ := Option.map_eq_some'.mp hb
  obtain ⟨hpi, hpe⟩ := List.get?_eq_some.mp hp
  obtain ⟨hqi, hqe⟩ := List.get?_eq_some.mp hq
  subst hpa
  subst hqb
  constructor
  · rcases Nat.lt_or_ge i j with hlt | hge
    · have hpq : p.1 ≤ q.1 := by
        have hpw := List.pairwise_iff_get.mp (streamSteps_pairwise (responseText u).length)
        have h := hpw ⟨i, hpi⟩ ⟨j, hqi⟩ hlt
        rw [hpe, hqe] at h
        exact h
      exact take_prefix_mono _ _ _ hpq
    · have hij' : i = j := le_antisymm hij hge
      subst hij'
      have hpq : p = q := by rw [← hpe, ← hqe]
      rw [hpq]
  · exact List.take_prefix _ _

set_option maxRecDepth 4000 in
/-- Witness for C6 at a concrete input: steps 0 and 1 of the trace. -/
theorem stream_partials_monotone_witness :
    (responseText "hi".data).take 0 <+: (responseText "hi".data).take 2 ∧
    (responseText "hi".data).take 2 <+: responseText "hi".data :=
  stream_partials_monotone "m_a4" 0 "hi".data [] (by simp) 0 1 (by omega)
    ((responseText "hi".data).take 0) ((responseText "hi".data).take 2)
    (by rw [traceContents_closed "m_a4" 0 "hi".data [] (by simp)]; exact rfl)
    (by rw [traceContents_closed "m_a4" 0 "hi".data [] (by simp), streamSteps,
          if_neg (by decide)]; exact rfl)

/- ### C4 -/

/-- C4 counterexample: the claim is false on the code — `addMessage` enforces
no window bound. Appending a 21st message to a 20-message history yields 21
retained messages, and the oldest turn is still at the front (nothing is
dropped). -/
theorem window_bound_not_enforced :
    (addMessage (sampleMsg 20) ((List.range 20).map sampleMsg)).length = 21 ∧
    (addMessage (sampleMsg 20) ((List.range 20).map sampleMsg)).head? = some (sampleMsg 0) :=
  ⟨rfl, rfl⟩

/-- C4 (amended): appending a turn never drops anything — the history after an
append has length one greater, starts with exactly the previous turns in their
original relative order, and ends with the new turn; no window bound (20 or
otherwise) is enforced. -/
theorem addMessage_appends_without_dropping (m : Message) (msgs : List Message) :
    (addMessage m msgs).length = msgs.length + 1 ∧
    (addMessage m msgs).take msgs.length = msgs ∧
    (addMessage m msgs).getLast? = some m := by
  refine ⟨by simp [addMessage], ?_, by simp [addMessage]⟩
  rw [addMessage, List.take_left]

/- ### C5 -/

/-- C5 counterexample: the claim is false on the code — the per-message delete
action (`attachMessageActions`) removes an arbitrary existing turn from the
transcript, here the second of two turns, with the history far below any
window bound. -/
theorem delete_removes_existing_turn :
    deleteMessage 1 [sampleMsg 0, sampleMsg 1] = [sampleMsg 0] ∧
    [sampleMsg 0, sampleMsg 1].length ≤ 20 :=
  ⟨rfl, by decide⟩

theorem updateMessage_length (mid : String) (u : MsgUpdates) (msgs : List Message) :
    (updateMessage mid u msgs).length = msgs.length := by
  induction msgs with
  | nil => rfl
  | cons x xs ih =>
    rw [updateMessage]
    by_cases h : x.id = mid
    · rw [if_pos h]
      simp
    · rw [if_neg h]
      simpa using ih

theorem updateMessage_get? (mid : String) (u : MsgUpdates) (msgs : List Message)
    (k : Nat) :
    (updateMessage mid u msgs).get? k = msgs.get? k ∨
    (updateMessage mid u msgs).get? k = (msgs.get? k).map (applyUpdates u) := by
  induction msgs generalizing k with
  | nil => left; rfl
  | cons x xs ih =>
    rw [updateMessage]
    by_cases h : x.id = mid
    · rw [if_pos h]
      match k with
      | 0 => right; rfl
      | k + 1 => left; rfl
    · rw [if_neg h]
      match k with
      | 0 => left; rfl
      | k + 1 => exact ih k

/-- C5 (amended): aside from the delete action — which removes a single turn
at an arbitrary position (a sublist of the history, so the relative order of
the remaining turns is preserved) — no operation removes or reorders a turn:
appending keeps the whole previous history as a prefix, and updating a message
keeps length and positions, replacing at most the matched position in place. -/
theorem interface_transcript_order (msgs : List Message) (m : Message) (mid : String)
    (u : MsgUpdates) (i : Nat) :
    msgs <+: addMessage m msgs ∧
    List.Sublist (deleteMessage i msgs) msgs ∧
    (updateMessage mid u msgs).length = msgs.length ∧
    ∀ k : Nat, (updateMessage mid u msgs).get? k = msgs.get? k ∨
      (updateMessage mid u msgs).get? k = (msgs.get? k).map (applyUpdates u) :=
  ⟨List.prefix_append msgs [m], List.eraseIdx_sublist msgs i,
    updateMessage_length mid u msgs, updateMessage_get? mid u msgs⟩

/- ### C9 -/

/-- C9: submitting with empty trimmed text and no pending attachments is a
no-op — the guard returns before any turn is appended or any simulated
response is started, leaving the whole state (hence every chat's message
list) and the pending-attachment list unchanged. -/
theorem empty_send_is_noop (umid amid : String) (ts : Nat) (input : List Char)
    (pending : List (List Char)) (s : AppState)
    (ht : trimChars input = []) (hp : pending = []) :
    sendClick umid amid ts input pending s = (s, pending) := by
  simp [sendClick, ht, hp]

/-- Witness for C9 at a concrete input (whitespace-only text, no
attachments). -/
theorem empty_send_is_noop_witness :
    sendClick "m_u" "m_b" 0 "   ".data [] initialState = (initialState, []) :=
  empty_send_is_noop "m_u" "m_b" 0 "   ".data [] initialState (by decide) rfl

/- ### C10 -/

theorem updateMessage_set_first (mid : String) (u : MsgUpdates) (msgs : List Message) :
    ∀ n (hn : n < msgs.length), (msgs.get ⟨n, hn⟩).id = mid →
      (∀ k (hk : k < n), (msgs.get ⟨k, Nat.lt_trans hk hn⟩).id ≠ mid) →
      updateMessage mid u msgs = msgs.set n (applyUpdates u (msgs.get ⟨n, hn⟩)) := by
  induction msgs with
  | nil => intro n hn; simp at hn
  | cons x xs ih =>
    intro n hn hid hfirst
    match n with
    | 0 =>
      have hid' : x.id = mid := hid
      rw [updateMessage, if_pos hid']
      rfl
    | n + 1 =>
      have hx : x.id ≠ mid := hfirst 0 (Nat.succ_pos n)
      rw [updateMessage, if_neg hx]
      rw [ih n (Nat.lt_of_succ_lt_succ hn) hid
        fun k hk => hfirst (k + 1) (Nat.succ_lt_succ hk)]
      rfl

/-- C10: `updateMessage` is total and frame-preserving — the length is always
unchanged; when no message carries the id, the list is left entirely
unchanged; when the first match is at position n, the result is exactly the
original list with position n replaced in place by the spread-updated message
(every other position untouched); and the spread leaves all fields other than
the updated ones (id, role, createdAt, thoughts) intact. -/
theorem updateMessage_total_frame (mid : String) (u : MsgUpdates) (msgs : List Message) :
    (updateMessage mid u msgs).length = msgs.length ∧
    ((∀ x ∈ msgs, x.id ≠ mid) → updateMessage mid u msgs = msgs) ∧
    (∀ n (hn : n < msgs.length), (msgs.get ⟨n, hn⟩).id = mid →
      (∀ k (hk : k < n), (msgs.get ⟨k, Nat.lt_trans hk hn⟩).id ≠ mid) →
      updateMessage mid u msgs = msgs.set n (applyUpdates u (msgs.get ⟨n, hn⟩))) ∧
    ∀ m : Message, (applyUpdates u m).id = m.id ∧ (applyUpdates u m).role = m.role ∧
      (applyUpdates u m).createdAt = m.createdAt ∧ (applyUpdates u m).thoughts = m.thoughts :=
  ⟨updateMessage_length mid u msgs, updateMessage_not_found mid u msgs,
    updateMessage_set_first mid u msgs, fun _ => ⟨rfl, rfl, rfl, rfl⟩⟩

/-- Witness for C10 at concrete inputs: an absent id leaves the list
unchanged; a present id keeps the length. -/
theorem updateMessage_total_frame_witness :
    updateMessage "zz" { content := some "x".data } [sampleMsg 0] = [sampleMsg 0] ∧
    (updateMessage "m_0" { content := some "x".data } [sampleMsg 0, sampleMsg 1]).length =
      2 :=
  ⟨(updateMessage_total_frame "zz" { content := some "x".data } [sampleMsg 0]).2.1
      (by decide),
    (updateMessage_total_frame "m_0" { content := some "x".data }
      [sampleMsg 0, sampleMsg 1]).1⟩

/- ### C3 -/

theorem admitN_closed (freeLimit today now : Nat) (g : Option Grant)
    (hg : grantActive now g = false) (k : Nat) :
    admitN freeLimit today now g (freshUser today) k =
      { count := min k freeLimit, resetDay := today } := by
  induction k with
  | zero => simp [admitN, freshUser]
  | succ k ih =>
    rw [admitN, ih, admission]
    rw [if_neg (by rw [hg]; exact Bool.false_ne_true)]
    simp only [if_pos rfl]
    rcases Nat.lt_or_ge k freeLimit with h | h
    · rw [if_neg (by simp; omega)]
      simp [UserRecord.mk.injEq]
      omega
    · rw [if_pos (by simp; omega)]
      simp [UserRecord.mk.injEq]
      omega

/-- C3 (spec-modelled): without an active grant, a fresh user is admitted on
each of the first freeLimit attempts of the day; the attempt after exactly
freeLimit admissions — and every further same-day attempt — is denied with
reason "quota exceeded" carrying the next day boundary as the reset time; and
the same user, still at the limit, is admitted again on a later day (the lazy
day-boundary reset). -/
theorem quota_denies_after_freeLimit (freeLimit today now tomorrow now2 : Nat)
    (g : Option Grant) (hg : grantActive now g = false)
    (hg2 : grantActive now2 g = false) (hfl : 0 < freeLimit) (hday : tomorrow ≠ today) :
    (∀ k, k < freeLimit →
      (admission freeLimit today now g (admitN freeLimit today now g (freshUser today) k)).1 =
        AdmitDecision.admitted) ∧
    (∀ j, freeLimit ≤ j →
      (admission freeLimit today now g (admitN freeLimit today now g (freshUser today) j)).1 =
        AdmitDecision.denied "quota exceeded" (today + 1)) ∧
    (admission freeLimit tomorrow now2 g
        (admitN freeLimit today now g (freshUser today) freeLimit)).1 =
      AdmitDecision.admitted := by
  refine ⟨?_, ?_, ?_⟩
  · intro k hk
    rw [admitN_closed freeLimit today now g hg k, admission]
    rw [if_neg (by rw [hg]; exact Bool.false_ne_true)]
    simp only [if_pos rfl]
    rw [if_neg (by simp; omega)]
  · intro j hj
    rw [admitN_closed freeLimit today now g hg j, admission]
    rw [if_neg (by rw [hg]; exact Bool.false_ne_true)]
    simp only [if_pos rfl]
    rw [if_pos (by simp; omega)]
  · rw [admitN_closed freeLimit today now g hg freeLimit, admission]
    rw [if_neg (by rw [hg2]; exact Bool.false_ne_true)]
    have h0 : (if ({ count := min freeLimit freeLimit, resetDay := today } :
          UserRecord).resetDay = tomorrow then
        ({ count := min freeLimit freeLimit, resetDay := today } : UserRecord).count
      else 0) = 0 := if_neg fun hc => hday (by simpa using hc.symm)
    rw [h0, if_neg (by omega)]

/-- Witness for C3 at freeLimit 3, day 0: the fourth same-day attempt is
denied with the reset time, and a next-day attempt is admitted again. -/
theorem quota_denies_after_freeLimit_witness :
    (admission 3 0 0 none (admitN 3 0 0 none (freshUser 0) 3)).1 =
      AdmitDecision.denied "quota exceeded" 1 ∧
    (admission 3 1 0 none (admitN 3 0 0 none (freshUser 0) 3)).1 =
      AdmitDecision.admitted := by
  have h := quota_denies_after_freeLimit 3 0 0 1 0 none rfl rfl (by omega) (by omega)
  exact ⟨h.2.1 3 (by omega), h.2.2⟩

/- ### C7 -/

theorem newChatClick_chats_eq (mid : String) (ts : Nat) (s : AppState) :
    newChatClick mid ts s =
      { chats :=
          { id := newChatId s.chats
            title := "New chat".data
            messages := [seedMessage mid ts] } :: s.chats
        activeChatId := newChatId s.chats } := by
  rw [newChatClick, initSeedMessages]
  simp [getActiveChat, modifyActiveChat, modifyFirst, addMessage]

/-- C7: starting a new conversation touches nothing else — after the new-chat
click the chat list is exactly a fresh chat (new id, title "New chat", only
the seeded welcome message) in front of the previous list, so every
previously existing chat keeps its id, title and message sequence unchanged,
and the fresh chat becomes the active conversation; the UI state holds no
quota data, so none is modified. -/
theorem new_chat_preserves_existing (mid : String) (ts : Nat) (s : AppState) :
    (newChatClick mid ts s).chats =
      { id := newChatId s.chats, title := "New chat".data,
        messages := [seedMessage mid ts] } :: s.chats ∧
    (newChatClick mid ts s).chats.tail = s.chats ∧
    (newChatClick mid ts s).activeChatId = newChatId s.chats := by
  rw [newChatClick_chats_eq]
  exact ⟨rfl, rfl, rfl⟩

/- ### C8: decimal representation is injective -/

theorem natDigits_toDigitsCore (fuel : Nat) : ∀ (n : Nat) (ds : List Char), n < fuel →
    Nat.toDigitsCore 10 fuel n ds = natDigits n ++ ds := by
  induction fuel with
  | zero => intro n ds h; exact absurd h (Nat.not_lt_zero n)
  | succ fuel ih =>
    intro n ds h
    rw [natDigits]
    simp only [Nat.toDigitsCore]
    by_cases h10 : n / 10 = 0
    · rw [if_pos h10, if_pos h10]
      rfl
    · rw [if_neg h10, if_neg h10]
      rw [ih (n / 10) (Nat.digitChar (n % 10) :: ds) (by omega)]
      simp

theorem valOfDigits_append_digit (cs : List Char) (c : Char) :
    valOfDigits (cs ++ [c]) = valOfDigits cs * 10 + (c.toNat - 48) := by
  rw [valOfDigits, valOfDigits, List.foldl_append]
  rfl

theorem digitChar_val : ∀ m, m < 10 → (Nat.digitChar m).toNat - 48 = m := by decide

theorem valOfDigits_natDigits (n : Nat) : valOfDigits (natDigits n) = n := by
  rw [natDigits]
  by_cases h10 : n / 10 = 0
  · rw [if_pos h10]
    have hd := digitChar_val (n % 10) (by omega)
    have hv : valOfDigits [Nat.digitChar (n % 10)] =
        0 * 10 + ((Nat.digitChar (n % 10)).toNat - 48) := rfl
    rw [hv, hd]
    omega
  · rw [if_neg h10, valOfDigits_append_digit, valOfDigits_natDigits (n / 10),
      digitChar_val (n % 10) (by omega)]
    omega
termination_by n
decreasing_by simp_wf; omega

theorem natDigits_injective (m n : Nat) (h : natDigits m = natDigits n) : m = n := by
  have h2 := congrArg valOfDigits h
  rwa [valOfDigits_natDigits, valOfDigits_natDigits] at h2

theorem nat_repr_injective (m n : Nat) (h : Nat.repr m = Nat.repr n) : m = n := by
  rw [Nat.repr, Nat.repr, Nat.toDigits, Nat.toDigits,
    natDigits_toDigitsCore (m + 1) m [] (by omega),
    natDigits_toDigitsCore (n + 1) n [] (by omega)] at h
  have h2 : natDigits m ++ [] = natDigits n ++ [] := congrArg String.data h
  exact natDigits_injective m n (by simpa using h2)

theorem chatNum_id_injective (a b : Nat)
    (h : ("c" ++ Nat.repr a : String) = "c" ++ Nat.repr b) : a = b := by
  have h2 := congrArg String.data h
  rw [String.data_append, String.data_append,
    show ("c" : String).data = ['c'] from rfl] at h2
  have h3 : (Nat.repr a).data = (Nat.repr b).data := by simpa using h2
  have h4 : Nat.repr a = Nat.repr b := by
    calc Nat.repr a = ⟨(Nat.repr a).data⟩ := rfl
      _ = ⟨(Nat.repr b).data⟩ := by rw [h3]
      _ = Nat.repr b := rfl
  exact nat_repr_injective a b h4

theorem expectedIds_succ (n : Nat) :
    expectedIds (n + 1) = ("c" ++ Nat.repr (n + 1)) :: expectedIds n := by
  rw [expectedIds, expectedIds, List.range_succ, List.reverse_append]
  rfl

theorem expectedIds_nodup (n : Nat) : (expectedIds n).Nodup := by
  rw [expectedIds]
  refine List.Nodup.map ?_ (List.nodup_reverse.mpr (List.nodup_range n))
  intro a b hab
  have h := chatNum_id_injective (a + 1) (b + 1) hab
  omega

theorem expectedIds_fresh (n : Nat) : ("c" ++ Nat.repr (n + 1)) ∉ expectedIds n := by
  rw [expectedIds]
  intro hmem
  obtain ⟨k, hk, heq⟩ := List.mem_map.mp hmem
  have hkn : k < n := List.mem_range.mp (List.mem_reverse.mp hk)
  have h := chatNum_id_injective (k + 1) (n + 1) heq
  omega

/- ### C8: the id invariant over reachable states -/

theorem modifyFirst_map_id (p : Chat → Bool) (f : List Message → List Message)
    (l : List Chat) :
    (modifyFirst p (fun c => { c with messages := f c.messages }) l).map Chat.id =
      l.map Chat.id := by
  induction l with
  | nil => rfl
  | cons x xs ih =>
    rw [modifyFirst]
    by_cases h : p x = true
    · rw [if_pos h]
      simp
    · rw [if_neg h]
      simpa using ih

theorem modifyActiveChat_ids (f : List Message → List Message) (s : AppState) :
    (modifyActiveChat f s).chats.map Chat.id = s.chats.map Chat.id ∧
    (modifyActiveChat f s).chats.length = s.chats.length := by
  have hm := modifyFirst_map_id (fun c => c.id == s.activeChatId) f s.chats
  constructor
  · simpa [modifyActiveChat] using hm
  · have h2 := congrArg List.length hm
    simpa [modifyActiveChat] using h2

theorem reachable_ids (s : AppState) (h : Reachable s) :
    s.chats.map Chat.id = expectedIds s.chats.length := by
  have h' : Relation.ReflTransGen Step initialState s := h
  clear h
  induction h' with
  | refl => rfl
  | tail hab hstep ih =>
    cases hstep with
    | newChat mid ts =>
      rw [newChatClick_chats_eq]
      simp [expectedIds_succ, ih, newChatId]
    | editActive f =>
      rw [(modifyActiveChat_ids f _).1, (modifyActiveChat_ids f _).2]
      exact ih
    | selectChat c hc => exact ih

/-- C8: in every reachable state the chat ids are pairwise distinct, so there
is at most one conversation record per id (two chats sharing an id are the
same record, hence lookup of the active chat by id is unambiguous), and the
id the new-chat handler assigns next is never already present in the list. -/
theorem chat_ids_distinct (s : AppState) (h : Reachable s) :
    (s.chats.map Chat.id).Nodup ∧
    newChatId s.chats ∉ s.chats.map Chat.id ∧
    ∀ c1 ∈ s.chats, ∀ c2 ∈ s.chats, c1.id = c2.id → c1 = c2 := by
  have hids := reachable_ids s h
  have hnd : (s.chats.map Chat.id).Nodup := by
    rw [hids]
    exact expectedIds_nodup _
  refine ⟨hnd, ?_, List.inj_on_of_nodup_map hnd⟩
  rw [newChatId, hids]
  exact expectedIds_fresh _

/-- Witness for C8 at the boot state. -/
theorem chat_ids_distinct_witness :
    (initialState.chats.map Chat.id).Nodup ∧
    newChatId initialState.chats ∉ initialState.chats.map Chat.id ∧
    ∀ c1 ∈ initialState.chats, ∀ c2 ∈ initialState.chats, c1.id = c2.id → c1 = c2 :=
  chat_ids_distinct initialState Relation.ReflTransGen.refl

end ChatPal
